import Mathlib

/-!
# burncpu: a verification development

Shallow embedding of `exec/bin/burncpu/burncpu.go` (the CPU-load generator
and its detached-process supervisor) and theorems about it.

Conventions of the embedding:

* Go `int` / `int64` values are `Int`; the two `int64` operations of the load
  loop that can leave the 64-bit range go through `wrapInt64`.
* `float64` quantities of the ramp controller are rationals: the ramp is
  studied in exact arithmetic.
* Go strings are `String`; a slice that may be `nil` is an `Option (List _)`.
* Calls that leave the process (the local channel `cl`, `time.Sleep`) are
  recorded in a trace; what they answer is read from a `World`, which may
  depend on everything recorded so far.
* `bin.PrintErrAndExit` ends the run: an `Outcome.exited` carries its message.
-/

namespace BurnCpu

/-! ## Command dispatcher (`main`) -/

/-- Lines 63-65 of `main`: the normalisation of `cpuCount`, with `cpuNum` the
value returned by `cpuPercentUtils.CPUNum()`. -/
def normalizeCpuCount (cpuCount cpuNum : Int) : Int :=
  if cpuCount ≤ 0 ∨ cpuCount > cpuNum then cpuNum else cpuCount

/-- What the `if / else if` chain of `main` (lines 67-77) ends up calling. -/
inductive Dispatch where
  | startBurnCpu
  | stopBurnCpuFunc
  | burnCpu
  | printErrAndExit (msg : String)
  deriving DecidableEq, Repr

/-- Lines 67-77 of `main`: the mode is chosen by the first flag that is set,
in the order `burnCpuStart`, `burnCpuStop`, `burnCpuNohup`. -/
def mainDispatch (burnCpuStart burnCpuStop burnCpuNohup : Bool) : Dispatch :=
  if burnCpuStart then Dispatch.startBurnCpu
  else if burnCpuStop then Dispatch.stopBurnCpuFunc
  else if burnCpuNohup then Dispatch.burnCpu
  else Dispatch.printErrAndExit "less --start or --stop flag"

/-- Number of mode flags that are set. -/
def flagCount (burnCpuStart burnCpuStop burnCpuNohup : Bool) : Nat :=
  burnCpuStart.toNat + burnCpuStop.toNat + burnCpuNohup.toNat

/-- True when the dispatcher ends in the usage error. -/
def Dispatch.isUsageError : Dispatch → Bool
  | Dispatch.printErrAndExit _ => true
  | _ => false

/-! ## Ramp controller (`burnCpu`, lines 125-141) -/

/-- One tick of the ramp goroutine (lines 134-138): the body of
`for range ticker.C`, with `startPercent` the value captured at line 131. -/
def rampTick (cpuPercent climbTime : Int) (startPercent slopePercent : ℚ) : ℚ :=
  if slopePercent < (cpuPercent : ℚ) then
    slopePercent + startPercent / (climbTime : ℚ)
  else if slopePercent > (cpuPercent : ℚ) then
    slopePercent - startPercent / (climbTime : ℚ)
  else
    slopePercent

/-- Value of `slopePercent` after `ticks` ticks of the one-second ticker in
the `climbTime != 0` branch: line 130 sets it to `totalCpuPercent[0]`
(`total0`), line 131 fixes `startPercent = float64(cpuPercent) - slopePercent`. -/
def rampAfter (cpuPercent climbTime : Int) (total0 : ℚ) : Nat → ℚ
  | 0 => total0
  | ticks + 1 =>
    rampTick cpuPercent climbTime ((cpuPercent : ℚ) - total0)
      (rampAfter cpuPercent climbTime total0 ticks)

/-- Lines 125-141: `slopePercent` as a function of the number of elapsed
ticks; with `climbTime == 0` no ticker runs and the value is the target. -/
def slopePercentAfter (cpuPercent climbTime : Int) (total0 : ℚ) (ticks : Nat) : ℚ :=
  if climbTime = 0 then (cpuPercent : ℚ) else rampAfter cpuPercent climbTime total0 ticks

/-! ## Load generator (`burnCpu`, lines 143-174) -/

/-- Two's-complement wrap-around of a Go `int64` result. -/
def wrapInt64 (x : Int) : Int :=
  (x + 9223372036854775808) % 18446744073709551616 - 9223372036854775808

/-- The values an `int64` variable can hold. -/
def IsInt64 (x : Int) : Prop :=
  -9223372036854775808 ≤ x ∧ x ≤ 9223372036854775807

instance (x : Int) : Decidable (IsInt64 x) := by
  unfold IsInt64
  exact inferInstance

/-- The constant `all` of line 147. -/
def cycleBudget : Int := 10000000

/-! ### Decimal text: `strconv.FormatInt`, `%d`, `strconv.Atoi`, `time.ParseDuration` -/

/-- The character of a decimal digit `d < 10`. -/
def digitChar (d : Nat) : Char := Char.ofNat (48 + d)

/-- True for the characters `0` to `9`. -/
def isDigit (c : Char) : Bool := decide (48 ≤ c.toNat) && decide (c.toNat ≤ 57)

/-- Decimal digits of `n`, most significant first, pushed in front of `acc`;
`fuel` bounds the number of digits. -/
def decimalDigits : Nat → Nat → List Char → List Char
  | 0, _, acc => acc
  | fuel + 1, n, acc =>
    if n < 10 then digitChar n :: acc
    else decimalDigits fuel (n / 10) (digitChar (n % 10) :: acc)

/-- Decimal text of a natural number. -/
def formatNat (n : Nat) : List Char := decimalDigits (n + 1) n []

/-- The text of `strconv.FormatInt(i, 10)`, which is also what the verb `%d`
of `fmt.Sprintf` prints. -/
def formatInt : Int → String
  | Int.ofNat n => String.mk (formatNat n)
  | Int.negSucc n => String.mk ('-' :: formatNat (n + 1))

/-- The helper `leadingInt` of Go's package `time`: consumes the leading
digits of the text, `x` being the value read so far; `none` is its overflow
error. -/
def leadingInt : List Char → Nat → Option (Nat × List Char)
  | [], x => some (x, [])
  | c :: s, x =>
    if isDigit c then
      if x > 9223372036854775808 / 10 then none
      else if x * 10 + (c.toNat - 48) > 9223372036854775808 then none
      else leadingInt s (x * 10 + (c.toNat - 48))
    else some (x, c :: s)

/-- The table `unitMap` of Go's package `time`, in nanoseconds. -/
def unitMap (u : List Char) : Option Nat :=
  if u = ['n', 's'] then some 1
  else if u = ['u', 's'] then some 1000
  else if u = ['µ', 's'] then some 1000
  else if u = ['μ', 's'] then some 1000
  else if u = ['m', 's'] then some 1000000
  else if u = ['s'] then some 1000000000
  else if u = ['m'] then some 60000000000
  else if u = ['h'] then some 3600000000000
  else none

/-- The loop of `time.ParseDuration` over the groups `<digits><unit>` of the
text, `d` being the sum so far. A group with a fractional part (a `.`) is not
modelled and yields `none`, as every error of the library does. -/
def parseGroups : Nat → List Char → Nat → Option Nat
  | 0, _, _ => none
  | _ + 1, [], d => some d
  | fuel + 1, c :: s, d =>
    if isDigit c then
      match leadingInt (c :: s) 0 with
      | none => none
      | some (v, rest) =>
        let u := rest.takeWhile (fun x => !(x == '.' || isDigit x))
        let s1 := rest.dropWhile (fun x => !(x == '.' || isDigit x))
        if u = [] then none
        else
          match unitMap u with
          | none => none
          | some unit =>
            if v > 9223372036854775808 / unit then none
            else if (d + v * unit) % 18446744073709551616 > 9223372036854775808 then none
            else parseGroups fuel s1 ((d + v * unit) % 18446744073709551616)
    else none

/-- What `time.ParseDuration` does once the optional sign is consumed. -/
def parseDurationBody (neg : Bool) (r : List Char) : Option Int :=
  if r = ['0'] then some 0
  else if r = [] then none
  else
    match parseGroups (r.length + 1) r 0 with
    | none => none
    | some d =>
      if neg then some (-(d : Int))
      else if d > 9223372036854775807 then none
      else some (d : Int)

/-- The function `time.ParseDuration` on texts without a fractional part:
an optional sign followed by groups `<digits><unit>`; the result is in
nanoseconds, `none` stands for the error result. -/
def parseDuration (s : String) : Option Int :=
  match s.data with
  | [] => parseDurationBody false []
  | c :: r =>
    if c = '-' then parseDurationBody true r
    else if c = '+' then parseDurationBody false r
    else parseDurationBody false (c :: r)

/-- All characters must be digits; the value read, `x` being the value so far. -/
def digitsValue : List Char → Nat → Option Nat
  | [], x => some x
  | c :: s, x => if isDigit c then digitsValue s (x * 10 + (c.toNat - 48)) else none

/-- What `strconv.Atoi` does once the optional sign is consumed. -/
def atoiBody (neg : Bool) (r : List Char) : Option Int :=
  if r = [] then none
  else
    match digitsValue r 0 with
    | none => none
    | some v =>
      if neg then
        if v ≤ 9223372036854775808 then some (-(v : Int)) else none
      else
        if v ≤ 9223372036854775807 then some (v : Int) else none

/-- The function `strconv.Atoi`: an optional sign and at least one decimal
digit, the value within the 64-bit range of `int`; `none` is its error. -/
def atoi (s : String) : Option Int :=
  match s.data with
  | [] => atoiBody false []
  | c :: r =>
    if c = '-' then atoiBody true r
    else if c = '+' then atoiBody false r
    else atoiBody false (c :: r)

/-! ### The step-0 recomputation -/

/-- The variables `busy`, `idle` and `ds` of one load goroutine
(lines 145-149); `ds` is a `time.Duration`, in nanoseconds. -/
structure LoadState where
  busy : Int
  idle : Int
  ds : Int
  deriving DecidableEq, Repr

/-- Lines 145-149: the initial values. -/
def LoadState.init : LoadState := ⟨0, 0, 0⟩

/-- Lines 158-166, the body of `if i == 0` after `dx` is known: `increment`
is the value of `int64(dx*100000)`. The error of `time.ParseDuration` is
discarded by the source, which leaves the zero duration. -/
def step0 (st : LoadState) (increment : Int) : LoadState :=
  let busy1 := wrapInt64 (st.busy + increment)
  let busy := if busy1 < 0 then 0 else busy1
  let idle1 := wrapInt64 (cycleBudget - busy)
  let idle := if idle1 < 0 then 0 else idle1
  let ds := (parseDuration (formatInt idle ++ "ns")).getD 0
  ⟨busy, idle, ds⟩

/-- State of a load goroutine after `n` recomputations with the same
increment, starting from the initial values. -/
def loadAfter (increment : Int) : Nat → LoadState
  | 0 => LoadState.init
  | n + 1 => step0 (loadAfter increment n) increment

/-! ## Process supervisor (lines 178-279) -/

/-- The fields of `spec.Response` the supervisor reads. -/
structure Response where
  Success : Bool
  Err : String
  deriving DecidableEq, Repr

/-- A call that leaves the process, or (the last four) a call of one of the
package-level function variables `runBurnCpuFunc`, `bindBurnCpuFunc`,
`checkBurnCpuFunc`, `stopBurnCpuFunc` as noted by a recording stand-in. -/
inductive Event where
  | Run (script args : String)
  | GetPidsByProcessName (processName processKey : String)
  | IsCommandAvailable (commandName : String)
  | Sleep (nanoseconds : Int)
  | runBurnCpuFunc (cpuCount cpuPercent : Int) (pidNeeded : Bool) (processor : String)
      (climbTime : Int) (absolute : Bool)
  | bindBurnCpuFunc (core : String) (pid : Int)
  | checkBurnCpuFunc
  | stopBurnCpuFunc
  deriving DecidableEq, Repr

/-- Everything recorded so far, oldest first. -/
abbrev Trace := List Event

/-- The local channel `cl`: what each of its methods answers, given the calls
recorded before it. `GetPidsByProcessName` answers a slice (`none` is `nil`)
and an error (`none` is `nil`, otherwise its text). -/
structure World where
  Run : Trace → String → String → Response
  GetPidsByProcessName : Trace → String → String → Option (List String) × Option String
  IsCommandAvailable : Trace → String → Bool

/-- Values the source takes from other packages. -/
structure Env where
  /-- The constant `exec.BurnCpuBin`. -/
  burnCpuBin : String
  /-- The value of `path.Join(util.GetProgramPath(), burnCpuBin)`. -/
  burnCpuPath : String
  /-- The text `spec.CommandTasksetNotFound.Msg`. -/
  tasksetNotFoundMsg : String
  /-- The text `%v` prints for the error of `strconv.Atoi` on a given input. -/
  atoiErrText : String → String

/-- How a function of the supervisor ends: it returns, or the process is
ended through `bin.PrintErrAndExit`. -/
inductive Outcome (α : Type) where
  | returned (value : α) (trace : Trace)
  | exited (msg : String) (trace : Trace)
  deriving DecidableEq, Repr

/-- Modelled from the spec: `bin.PrintErrAndExit` (package `exec/bin`, not
among the sources) reports the diagnostic and aborts with a non-zero exit;
nothing after it runs. -/
def printErrAndExit {α : Type} (msg : String) (t : Trace) : Outcome α :=
  Outcome.exited msg t

/-- The trace at which an outcome ends. -/
def Outcome.trace {α : Type} : Outcome α → Trace
  | Outcome.returned _ t => t
  | Outcome.exited _ t => t

/-- Type of the variable `stopBurnCpuFunc`. -/
abbrev StopFunc := Trace → Outcome (Bool × String)

/-- Type of the variable `runBurnCpuFunc` (the context argument is dropped). -/
abbrev RunFunc := Int → Int → Bool → String → Int → Bool → Trace → Outcome Int

/-- Type of the variable `bindBurnCpuFunc`. -/
abbrev BindFunc := String → Int → Trace → Outcome Unit

/-- Type of the variable `checkBurnCpuFunc`. -/
abbrev CheckFunc := Trace → Outcome Unit

/-- The Go test `pids == nil || len(pids) == 0`. -/
def sliceEmpty {α : Type} : Option (List α) → Bool
  | none => true
  | some [] => true
  | some (_ :: _) => false

/-- The statement pair `stopBurnCpuFunc(); bin.PrintErrAndExit(msg)`. -/
def stopThenExit {α : Type} (stopF : StopFunc) (msg : String) (t : Trace) : Outcome α :=
  match stopF t with
  | Outcome.returned _ t1 => printErrAndExit msg t1
  | Outcome.exited m t1 => Outcome.exited m t1

/-- Lines 267-279. -/
def stopBurnCpu (env : Env) (w : World) (t : Trace) : Outcome (Bool × String) :=
  let errs := ""
  let pids := (w.GetPidsByProcessName t env.burnCpuBin "nohup").1
  let t1 := t ++ [Event.GetPidsByProcessName env.burnCpuBin "nohup"]
  if sliceEmpty pids then Outcome.returned (true, errs) t1
  else
    let args := "-9 " ++ " ".intercalate (pids.getD [])
    let response := w.Run t1 "kill" args
    let t2 := t1 ++ [Event.Run "kill" args]
    if !response.Success then Outcome.returned (false, response.Err) t2
    else Outcome.returned (true, errs) t2

/-- The text `%v` prints for a slice of strings. -/
def fmtSlice (pids : Option (List String)) : String :=
  "[" ++ " ".intercalate (pids.getD []) ++ "]"

/-- Lines 208-216 of `runBurnCpu`: the argument text handed to `nohup`. -/
def burnCpuArgs (env : Env) (cpuCount cpuPercent : Int) (pidNeeded : Bool)
    (processor : String) (climbTime : Int) (absolute : Bool) : String :=
  let args := env.burnCpuPath ++ " --nohup --cpu-count " ++ formatInt cpuCount ++
    " --cpu-percent " ++ formatInt cpuPercent ++ " --climb-time " ++ formatInt climbTime
  let args := if pidNeeded then args ++ " --cpu-processor " ++ processor else args
  let args := if absolute then args ++ " --absolute" else args
  args ++ " > /dev/null 2>&1 &"

/-- Line 224 of `runBurnCpu`: the value stored under `channel.ProcessKey`. -/
def processKey (processor : String) : String := "cpu-processor " ++ processor

/-- Lines 207-241. -/
def runBurnCpu (env : Env) (w : World) (stopF : StopFunc) : RunFunc :=
  fun cpuCount cpuPercent pidNeeded processor climbTime absolute t =>
  let args := burnCpuArgs env cpuCount cpuPercent pidNeeded processor climbTime absolute
  let response := w.Run t "nohup" args
  let t1 := t ++ [Event.Run "nohup" args]
  if !response.Success then stopThenExit stopF response.Err t1
  else if pidNeeded then
    let found := w.GetPidsByProcessName t1 env.burnCpuBin (processKey processor)
    let t2 := t1 ++ [Event.GetPidsByProcessName env.burnCpuBin (processKey processor)]
    match found.2 with
    | some err =>
      stopThenExit stopF
        ("bind cpu core failed, cannot get the burning program pid, " ++ err) t2
    | none =>
      match found.1 with
      | some (first :: rest) =>
        match atoi first with
        | some pid => Outcome.returned pid t2
        | none =>
          stopThenExit stopF
            ("bind cpu core failed, get pid failed, pids: " ++ fmtSlice (some (first :: rest)) ++
              ", err: " ++ env.atoiErrText first) t2
      | _ => Outcome.returned (-1) t2
  else Outcome.returned (-1) t1

/-- Lines 244-253. -/
def bindBurnCpuByTaskset (env : Env) (w : World) (stopF : StopFunc) : BindFunc :=
  fun core pid t =>
  let t1 := t ++ [Event.IsCommandAvailable "taskset"]
  if !w.IsCommandAvailable t "taskset" then printErrAndExit env.tasksetNotFoundMsg t1
  else
    let args := "-a -cp " ++ core ++ " " ++ formatInt pid
    let response := w.Run t1 "taskset" args
    let t2 := t1 ++ [Event.Run "taskset" args]
    if !response.Success then stopThenExit stopF response.Err t2
    else Outcome.returned () t2

/-- Lines 256-264. -/
def checkBurnCpu (env : Env) (w : World) : CheckFunc :=
  fun t =>
  let t1 := t ++ [Event.Sleep 1000000000]
  let pids := (w.GetPidsByProcessName t1 env.burnCpuBin "nohup").1
  let t2 := t1 ++ [Event.GetPidsByProcessName env.burnCpuBin "nohup"]
  if sliceEmpty pids then printErrAndExit (env.burnCpuBin ++ " pid not found") t2
  else Outcome.returned () t2

/-- Splits a text at every occurrence of `sep`; the empty text gives one
empty piece. -/
def splitChars (sep : Char) : List Char → List (List Char)
  | [] => [[]]
  | c :: cs =>
    if c = sep then [] :: splitChars sep cs
    else
      match splitChars sep cs with
      | [] => [[c]]
      | piece :: pieces => (c :: piece) :: pieces

/-- The function `strings.Split` for a separator of one character. -/
def stringsSplit (s : String) (sep : Char) : List String :=
  (splitChars sep s.data).map String.mk

/-- Lines 196-199 of `startBurnCpu`: the loop over `cores`. -/
def startCores (runF : RunFunc) (bindF : BindFunc) (cpuCount cpuPercent climbTime : Int)
    (absolute : Bool) : List String → Trace → Outcome Unit
  | [], t => Outcome.returned () t
  | core :: cores, t =>
    match runF cpuCount cpuPercent true core climbTime absolute t with
    | Outcome.exited m t1 => Outcome.exited m t1
    | Outcome.returned pid t1 =>
      match bindF core pid t1 with
      | Outcome.exited m t2 => Outcome.exited m t2
      | Outcome.returned _ t2 =>
        startCores runF bindF cpuCount cpuPercent climbTime absolute cores t2

/-- Lines 191-204, over the current values of the three function variables
and of the flag variables. -/
def startBurnCpu (runF : RunFunc) (bindF : BindFunc) (checkF : CheckFunc) (cpuList : String)
    (cpuCount cpuPercent climbTime : Int) (absolute : Bool) (t : Trace) : Outcome Unit :=
  if cpuList ≠ "" then
    let cpuCount := 1
    let cores := stringsSplit cpuList ','
    match startCores runF bindF cpuCount cpuPercent climbTime absolute cores t with
    | Outcome.exited m t1 => Outcome.exited m t1
    | Outcome.returned _ t1 => checkF t1
  else
    match runF cpuCount cpuPercent false "" climbTime absolute t with
    | Outcome.exited m t1 => Outcome.exited m t1
    | Outcome.returned _ t1 => checkF t1

/-! ### Recording stand-ins for the function variables -/

/-- Stand-in for `runBurnCpuFunc`: notes the call and returns the pid that
`pidOf` assigns to the calls recorded so far. -/
def recordRun (pidOf : Trace → Int) : RunFunc :=
  fun cpuCount cpuPercent pidNeeded processor climbTime absolute t =>
  Outcome.returned (pidOf t)
    (t ++ [Event.runBurnCpuFunc cpuCount cpuPercent pidNeeded processor climbTime absolute])

/-- Stand-in for `bindBurnCpuFunc`: notes the call and returns. -/
def recordBind : BindFunc :=
  fun core pid t => Outcome.returned () (t ++ [Event.bindBurnCpuFunc core pid])

/-- Stand-in for `checkBurnCpuFunc`: notes the call and returns. -/
def recordCheck : CheckFunc :=
  fun t => Outcome.returned () (t ++ [Event.checkBurnCpuFunc])

/-- Stand-in for `stopBurnCpuFunc`: notes the call and returns `result`. -/
def recordStop (result : Bool × String) : StopFunc :=
  fun t => Outcome.returned result (t ++ [Event.stopBurnCpuFunc])

/-- Runs `stopBurnCpu` `k` times in a row; the results of the runs, in order,
and the final trace. -/
def stopTimes (env : Env) (w : World) : Nat → Trace → List (Bool × String) × Trace
  | 0, t => ([], t)
  | k + 1, t =>
    match stopBurnCpu env w t with
    | Outcome.returned r t1 => (r :: (stopTimes env w k t1).1, (stopTimes env w k t1).2)
    | Outcome.exited _ t1 => ([], t1)

/-! ### Sample worlds and helpers used by the theorems -/

/-- True for the record of a `cl.Run` call. -/
def Event.isRun : Event → Bool
  | Event.Run _ _ => true
  | _ => false

/-- A world with no burn process: every query answers the nil slice. -/
def worldNoWorker : World where
  Run := fun _ _ _ => ⟨true, ""⟩
  GetPidsByProcessName := fun _ _ _ => (none, none)
  IsCommandAvailable := fun _ _ => true

/-- A world with two burn processes, 4242 and 4243, in which `kill` fails. -/
def worldTwoWorkers : World where
  Run := fun _ script _ =>
    if script = "kill" then ⟨false, "kill: not permitted"⟩ else ⟨true, ""⟩
  GetPidsByProcessName := fun _ _ _ => (some ["4242", "4243"], none)
  IsCommandAvailable := fun _ _ => true

/-- A host without `taskset`, on which the worker 4242 has been launched. -/
def worldNoTaskset : World where
  Run := fun _ _ _ => ⟨true, ""⟩
  GetPidsByProcessName := fun _ _ _ => (some ["4242"], none)
  IsCommandAvailable := fun _ _ => false

/-- Sample values of the imported constants. -/
def sampleEnv : Env where
  burnCpuBin := "chaos_burncpu"
  burnCpuPath := "/opt/chaosblade/bin/chaos_burncpu"
  tasksetNotFoundMsg := "taskset command not found"
  atoiErrText := fun s => "strconv.Atoi: parsing " ++ s ++ ": invalid syntax"

/-- The calls `startBurnCpu` is expected to make for a list of cores, after
the trace `t`: for each core in order a launch with pid lookup enabled and
that core as processor tag, then a bind of that core to the pid the launch
returned. -/
def coreCalls (pidOf : Trace → Int) (cpuCount cpuPercent climbTime : Int) (absolute : Bool) :
    List String → Trace → Trace
  | [], t => t
  | core :: cores, t =>
    coreCalls pidOf cpuCount cpuPercent climbTime absolute cores
      (t ++ [Event.runBurnCpuFunc cpuCount cpuPercent true core climbTime absolute,
        Event.bindBurnCpuFunc core (pidOf t)])

/-- True when `text` starts with `key`. -/
def startsWith : List Char → List Char → Bool
  | _, [] => true
  | [], _ :: _ => false
  | c :: cs, k :: ks => (c == k) && startsWith cs ks

/-- True when `key` occurs in `text`. -/
def containsText : List Char → List Char → Bool
  | [], key => key.isEmpty
  | c :: cs, key => startsWith (c :: cs) key || containsText cs key

/-- The command lines handed to `nohup` so far, oldest first. -/
def launchedWorkers : Trace → List String
  | [] => []
  | Event.Run script args :: t =>
    if script = "nohup" then args :: launchedWorkers t else launchedWorkers t
  | _ :: t => launchedWorkers t

/-- The pids, counted up from `pid`, of the command lines that contain `key`. -/
def pidsMatching (key : String) : Int → List String → List String
  | _, [] => []
  | pid, cmd :: cmds =>
    if containsText cmd.data key.data then formatInt pid :: pidsMatching key (pid + 1) cmds
    else pidsMatching key (pid + 1) cmds

/-- A host on which every command succeeds and `taskset` is installed. The
process-table query answers as the spec describes it, "by executable name +
argument substring": the pids of the workers launched so far whose command
line contains the key; the workers get the pids 4242, 4243, ... in launch
order. -/
def worldProcessTable : World where
  Run := fun _ _ _ => ⟨true, ""⟩
  GetPidsByProcessName := fun t _ key => (some (pidsMatching key 4242 (launchedWorkers t)), none)
  IsCommandAvailable := fun _ _ => true

/-- The host of `worldProcessTable` without `taskset`. -/
def worldProcessTableNoTaskset : World where
  Run := fun _ _ _ => ⟨true, ""⟩
  GetPidsByProcessName := fun t _ key => (some (pidsMatching key 4242 (launchedWorkers t)), none)
  IsCommandAvailable := fun _ _ => false

/-- The host of `worldProcessTable` on which running `taskset` fails. -/
def worldProcessTableBindFails : World where
  Run := fun _ script _ =>
    if script = "taskset" then ⟨false, "taskset: failed to set affinity"⟩ else ⟨true, ""⟩
  GetPidsByProcessName := fun t _ key => (some (pidsMatching key 4242 (launchedWorkers t)), none)
  IsCommandAvailable := fun _ _ => true

/-- The `startBurnCpu` of the running program: the function variables hold
`runBurnCpu`, `bindBurnCpuByTaskset` and `checkBurnCpu`, and these call
`stopBurnCpu`. -/
def startBurnCpuReal (env : Env) (w : World) (cpuList : String)
    (cpuCount cpuPercent climbTime : Int) (absolute : Bool) (t : Trace) : Outcome Unit :=
  startBurnCpu (runBurnCpu env w (stopBurnCpu env w))
    (bindBurnCpuByTaskset env w (stopBurnCpu env w)) (checkBurnCpu env w)
    cpuList cpuCount cpuPercent climbTime absolute t


/-! ## Theorems: command dispatcher -/

/-- C10. Core-count clamp: with `cpuNum >= 1` cores available, the normalised
count is the requested one when it lies in `[1, cpuNum]`, is `cpuNum` when the
request is `<= 0` or `> cpuNum`, and always lies in `[1, cpuNum]`. -/
theorem normalizeCpuCount_clamp (cpuCount cpuNum : Int) (hN : 1 ≤ cpuNum) :
    (1 ≤ cpuCount ∧ cpuCount ≤ cpuNum → normalizeCpuCount cpuCount cpuNum = cpuCount) ∧
    (cpuCount ≤ 0 ∨ cpuCount > cpuNum → normalizeCpuCount cpuCount cpuNum = cpuNum) ∧
    1 ≤ normalizeCpuCount cpuCount cpuNum ∧ normalizeCpuCount cpuCount cpuNum ≤ cpuNum := by
  unfold normalizeCpuCount
  refine ⟨?_, ?_, ?_, ?_⟩
  · intro h
    rw [if_neg]
    omega
  · intro h
    rw [if_pos h]
  · split_ifs with h <;> omega
  · split_ifs with h <;> omega

/-- Instance of C10 on a host with 8 cores: a request of 3 is kept. -/
theorem normalizeCpuCount_clamp_witness :
    (1 : Int) ≤ 8 ∧
    ((1 ≤ (3 : Int) ∧ (3 : Int) ≤ 8 → normalizeCpuCount 3 8 = 3) ∧
    ((3 : Int) ≤ 0 ∨ (3 : Int) > 8 → normalizeCpuCount 3 8 = 8) ∧
    1 ≤ normalizeCpuCount 3 8 ∧ normalizeCpuCount 3 8 ≤ 8) :=
  ⟨by decide, normalizeCpuCount_clamp 3 8 (by decide)⟩

/-- C9, as stated, fails: with `--start` and `--stop` set together the
dispatcher reports no usage error, it runs the start mode. -/
theorem mainDispatch_conflict_runs_start :
    flagCount true true false = 2 ∧
    mainDispatch true true false = Dispatch.startBurnCpu ∧
    (mainDispatch true true false).isUsageError = false := by
  decide

/-- C9, amended. The dispatcher reports the usage error exactly when no mode
flag is set; when exactly one flag is set it runs that mode; in general it
runs the mode of the first flag set in the order start, stop, nohup, so
conflicting flags are resolved by that priority and are no error. -/
theorem mainDispatch_priority (burnCpuStart burnCpuStop burnCpuNohup : Bool) :
    ((mainDispatch burnCpuStart burnCpuStop burnCpuNohup).isUsageError = true ↔
      flagCount burnCpuStart burnCpuStop burnCpuNohup = 0) ∧
    (mainDispatch burnCpuStart burnCpuStop burnCpuNohup
        = Dispatch.printErrAndExit "less --start or --stop flag" ↔
      flagCount burnCpuStart burnCpuStop burnCpuNohup = 0) ∧
    (flagCount burnCpuStart burnCpuStop burnCpuNohup = 1 →
      (burnCpuStart = true →
        mainDispatch burnCpuStart burnCpuStop burnCpuNohup = Dispatch.startBurnCpu) ∧
      (burnCpuStop = true →
        mainDispatch burnCpuStart burnCpuStop burnCpuNohup = Dispatch.stopBurnCpuFunc) ∧
      (burnCpuNohup = true →
        mainDispatch burnCpuStart burnCpuStop burnCpuNohup = Dispatch.burnCpu)) ∧
    (burnCpuStart = true →
      mainDispatch burnCpuStart burnCpuStop burnCpuNohup = Dispatch.startBurnCpu) ∧
    (burnCpuStart = false → burnCpuStop = true →
      mainDispatch burnCpuStart burnCpuStop burnCpuNohup = Dispatch.stopBurnCpuFunc) ∧
    (burnCpuStart = false → burnCpuStop = false → burnCpuNohup = true →
      mainDispatch burnCpuStart burnCpuStop burnCpuNohup = Dispatch.burnCpu) := by
  cases burnCpuStart <;> cases burnCpuStop <;> cases burnCpuNohup <;> decide

/-- Instance of the amended C9: `--stop` alone runs the stop mode. -/
theorem mainDispatch_priority_witness :
    flagCount false true false = 1 ∧
    mainDispatch false true false = Dispatch.stopBurnCpuFunc :=
  ⟨by decide, ((mainDispatch_priority false true false).2.2.1 (by decide)).2.1 rfl⟩

/-! ## Theorems: ramp controller -/

/-- Ramp started above the target (`total0 > cpuPercent`, `climbTime > 0`):
the second branch of the tick subtracts the negative quantity
`startPercent / climbTime`, so every tick moves `slopePercent` further up. -/
theorem rampAfter_from_above (cpuPercent climbTime : Int) (total0 : ℚ)
    (hT : 0 < climbTime) (h0 : (cpuPercent : ℚ) < total0) (n : Nat) :
    rampAfter cpuPercent climbTime total0 n
      = total0 + (n : ℚ) * ((total0 - (cpuPercent : ℚ)) / (climbTime : ℚ)) := by
  have hTq : (0 : ℚ) < (climbTime : ℚ) := by exact_mod_cast hT
  have hstep : 0 < (total0 - (cpuPercent : ℚ)) / (climbTime : ℚ) :=
    div_pos (by linarith) hTq
  induction n with
  | zero => simp [rampAfter]
  | succ n ih =>
    have hge : (0 : ℚ) ≤ (n : ℚ) * ((total0 - (cpuPercent : ℚ)) / (climbTime : ℚ)) :=
      mul_nonneg (Nat.cast_nonneg n) hstep.le
    have hgt : (cpuPercent : ℚ) < rampAfter cpuPercent climbTime total0 n := by
      rw [ih]; linarith
    simp only [rampAfter, rampTick]
    rw [if_neg (not_lt.mpr hgt.le), if_pos hgt, ih]
    push_cast
    ring

/-- Ramp started at or below the target (`total0 <= cpuPercent`): during the
first `climbTime` ticks the value climbs linearly. -/
theorem rampAfter_from_below_climb (cpuPercent climbTime : Int) (total0 : ℚ)
    (hT : 0 < climbTime) (h0 : total0 ≤ (cpuPercent : ℚ)) (n : Nat)
    (hn : (n : Int) ≤ climbTime) :
    rampAfter cpuPercent climbTime total0 n
      = total0 + (n : ℚ) * (((cpuPercent : ℚ) - total0) / (climbTime : ℚ)) := by
  have hTq : (0 : ℚ) < (climbTime : ℚ) := by exact_mod_cast hT
  induction n with
  | zero => simp [rampAfter]
  | succ n ih =>
    have hn1 : (n : Int) < climbTime := by push_cast at hn; omega
    have hnq : (n : ℚ) < (climbTime : ℚ) := by exact_mod_cast hn1
    have ih1 := ih (le_of_lt hn1)
    simp only [rampAfter, rampTick]
    rcases eq_or_lt_of_le h0 with heq | hlt
    · have hz : (cpuPercent : ℚ) - total0 = 0 := by rw [heq]; ring
      rw [ih1, hz]
      simp [heq]
    · have hd : 0 < ((cpuPercent : ℚ) - total0) / (climbTime : ℚ) :=
        div_pos (by linarith) hTq
      have hlt1 : rampAfter cpuPercent climbTime total0 n < (cpuPercent : ℚ) := by
        rw [ih1]
        have : (n : ℚ) * (((cpuPercent : ℚ) - total0) / (climbTime : ℚ))
            < (climbTime : ℚ) * (((cpuPercent : ℚ) - total0) / (climbTime : ℚ)) :=
          mul_lt_mul_of_pos_right hnq hd
        have hc : (climbTime : ℚ) * (((cpuPercent : ℚ) - total0) / (climbTime : ℚ))
            = (cpuPercent : ℚ) - total0 := by
          field_simp
        linarith
      rw [if_pos hlt1, ih1]
      push_cast
      ring

/-- Ramp started at or below the target: after exactly `climbTime` ticks
`slopePercent` equals `cpuPercent`, and it keeps that value on every later
tick. -/
theorem rampAfter_from_below_reaches (cpuPercent climbTime : Int) (total0 : ℚ)
    (hT : 0 < climbTime) (h0 : total0 ≤ (cpuPercent : ℚ)) (n : Nat)
    (hn : climbTime ≤ (n : Int)) :
    rampAfter cpuPercent climbTime total0 n = (cpuPercent : ℚ) := by
  have hTq : (0 : ℚ) < (climbTime : ℚ) := by exact_mod_cast hT
  induction n with
  | zero => exfalso; simp at hn; omega
  | succ n ih =>
    rcases eq_or_lt_of_le hn with heq | hlt
    · have hcast : ((n + 1 : Nat) : ℚ) = (climbTime : ℚ) := by
        have : ((climbTime : Int) : ℚ) = (((n + 1 : Nat) : Int) : ℚ) := by rw [heq]
        rw [this]; norm_cast
      rw [rampAfter_from_below_climb cpuPercent climbTime total0 hT h0 (n + 1) (le_of_eq heq.symm),
        hcast]
      field_simp
    · have hle : climbTime ≤ (n : Int) := by push_cast at hlt; omega
      simp only [rampAfter, rampTick]
      rw [ih hle]
      simp

/-- C1 at the failing input ambient load 80, target 50, `climbTime` 10: after
the 10 ticks `slopePercent` is 110, not 50, and no number of ticks ever makes
it 50; every tick raises it by 3. -/
theorem ramp_from_above_moves_away :
    slopePercentAfter 50 10 80 10 = 110 ∧
    (∀ n : Nat, slopePercentAfter 50 10 80 n ≠ 50) ∧
    (∀ n : Nat, slopePercentAfter 50 10 80 (n + 1) = slopePercentAfter 50 10 80 n + 3) := by
  have key : ∀ n : Nat, slopePercentAfter 50 10 80 n = 80 + (n : ℚ) * 3 := by
    intro n
    have h := rampAfter_from_above 50 10 80 (by decide) (by norm_num) n
    simp only [slopePercentAfter]
    rw [if_neg (by decide), h]
    norm_num
  refine ⟨?_, ?_, ?_⟩
  · rw [key]; norm_num
  · intro n
    rw [key]
    have : (0 : ℚ) ≤ (n : ℚ) := Nat.cast_nonneg n
    intro h
    linarith
  · intro n
    rw [key, key]
    push_cast
    ring


/-! ## Theorems: load generator -/

theorem wrapInt64_of_isInt64 (x : Int) (h : IsInt64 x) : wrapInt64 x = x := by
  unfold IsInt64 at h
  unfold wrapInt64
  omega

theorem wrapInt64_isInt64 (x : Int) : IsInt64 (wrapInt64 x) := by
  unfold IsInt64 wrapInt64
  omega

theorem digitChar_toNat (d : Nat) (h : d < 10) : (digitChar d).toNat = 48 + d := by
  interval_cases d <;> rfl

theorem isDigit_digitChar (d : Nat) (h : d < 10) : isDigit (digitChar d) = true := by
  interval_cases d <;> rfl

/-- Reading back the digits written by `decimalDigits` continues from the
value `n`. -/
theorem leadingInt_decimalDigits (fuel : Nat) :
    ∀ (n : Nat) (acc : List Char), n < fuel → n ≤ 9223372036854775808 →
      leadingInt (decimalDigits fuel n acc) 0 = leadingInt acc n := by
  induction fuel with
  | zero => intro n acc h; omega
  | succ fuel ih =>
    intro n acc hf hn
    unfold decimalDigits
    by_cases h10 : n < 10
    · rw [if_pos h10]
      conv_lhs => unfold leadingInt
      rw [isDigit_digitChar n h10, digitChar_toNat n h10]
      simp only [if_true]
      rw [if_neg (by omega), if_neg (by omega)]
      congr 1
      omega
    · rw [if_neg h10, ih (n / 10) _ (by omega) (by omega)]
      have hm : n % 10 < 10 := Nat.mod_lt n (by decide)
      conv_lhs => unfold leadingInt
      rw [isDigit_digitChar _ hm, digitChar_toNat _ hm]
      simp only [if_true]
      rw [if_neg (by omega), if_neg (by omega)]
      congr 1
      omega

/-- The text written by `decimalDigits` starts with a digit. -/
theorem decimalDigits_head (fuel : Nat) :
    ∀ (n : Nat) (acc : List Char), n < fuel →
      ∃ c s, decimalDigits fuel n acc = c :: s ∧ isDigit c = true := by
  induction fuel with
  | zero => intro n acc h; omega
  | succ fuel ih =>
    intro n acc hf
    unfold decimalDigits
    by_cases h10 : n < 10
    · rw [if_pos h10]
      exact ⟨_, _, rfl, isDigit_digitChar n h10⟩
    · rw [if_neg h10]
      exact ih (n / 10) _ (by omega)

/-- The text written by `decimalDigits` ends with `acc`. -/
theorem decimalDigits_append (fuel : Nat) :
    ∀ (n : Nat) (acc : List Char),
      decimalDigits fuel n acc = decimalDigits fuel n [] ++ acc := by
  induction fuel with
  | zero => intro n acc; simp [decimalDigits]
  | succ fuel ih =>
    intro n acc
    unfold decimalDigits
    by_cases h10 : n < 10
    · simp [h10]
    · rw [if_neg h10, if_neg h10, ih (n / 10) (digitChar (n % 10) :: acc),
        ih (n / 10) [digitChar (n % 10)]]
      simp

/-- Round trip of lines 166: the duration parsed from the decimal text of a
non-negative `int64` followed by `ns` is that number of nanoseconds. -/
theorem parseDuration_formatInt_ns (idle : Int) (h0 : 0 ≤ idle)
    (h1 : idle ≤ 9223372036854775807) :
    parseDuration (formatInt idle ++ "ns") = some idle := by
  obtain ⟨n, rfl⟩ := Int.eq_ofNat_of_zero_le h0
  have hn : n ≤ 9223372036854775807 := by exact_mod_cast h1
  have hdata : (formatInt (n : Int) ++ "ns").data = decimalDigits (n + 1) n ['n', 's'] := by
    show (formatNat n ++ ['n', 's']) = _
    unfold formatNat
    rw [decimalDigits_append (n + 1) n ['n', 's']]
  obtain ⟨c, s, hcs, hc⟩ := decimalDigits_head (n + 1) n ['n', 's'] (by omega)
  have hlead : leadingInt (c :: s) 0 = some (n, ['n', 's']) := by
    rw [← hcs, leadingInt_decimalDigits (n + 1) n _ (by omega) (by omega)]
    rfl
  have hminus : c ≠ '-' := by
    intro h; rw [h] at hc; exact absurd hc (by decide)
  have hplus : c ≠ '+' := by
    intro h; rw [h] at hc; exact absurd hc (by decide)
  have hlen : 3 ≤ (c :: s).length := by
    rw [← hcs, decimalDigits_append (n + 1) n ['n', 's']]
    obtain ⟨c', s', hcs', _⟩ := decimalDigits_head (n + 1) n [] (by omega)
    rw [hcs']
    simp
  have hne0 : (c :: s) ≠ ['0'] := by
    intro h; rw [h] at hlen; simp at hlen
  unfold parseDuration
  rw [hdata, hcs]
  simp only [if_neg hminus, if_neg hplus]
  unfold parseDurationBody
  rw [if_neg hne0, if_neg (by simp)]
  have hgroups : parseGroups ((c :: s).length + 1) (c :: s) 0 = some n := by
    unfold parseGroups
    rw [if_pos hc, hlead]
    have hu : unitMap ['n', 's'] = some 1 := by decide
    have htw : List.takeWhile (fun x => !(x == '.' || isDigit x)) ['n', 's'] = ['n', 's'] := by
      decide
    have hdw : List.dropWhile (fun x => !(x == '.' || isDigit x)) ['n', 's'] = [] := by
      decide
    simp only [htw, hdw, hu]
    rw [if_neg (by simp), if_neg (by simp; omega)]
    have hmod : (0 + n * 1) % 18446744073709551616 = n := by omega
    rw [hmod, if_neg (by omega)]
    simp only [List.length_cons]
    rfl
  rw [hgroups]
  simp only [Bool.false_eq_true, if_false]
  rw [if_neg (by omega)]

/-- The new `busy` of a recomputation is the `int64` sum, raised to 0. -/
theorem step0_busy (st : LoadState) (increment : Int) :
    (step0 st increment).busy = max 0 (wrapInt64 (st.busy + increment)) := by
  simp only [step0]
  split_ifs with h <;> omega

theorem step0_busy_bounds (st : LoadState) (increment : Int) :
    0 ≤ (step0 st increment).busy ∧ (step0 st increment).busy ≤ 9223372036854775807 := by
  have hw := wrapInt64_isInt64 (st.busy + increment)
  rw [step0_busy]
  unfold IsInt64 at hw
  omega

/-- The subtraction `all - busy` never leaves the `int64` range, so the new
`idle` is the exact difference raised to 0. -/
theorem step0_idle (st : LoadState) (increment : Int) :
    (step0 st increment).idle = max 0 (10000000 - (step0 st increment).busy) := by
  have hb := step0_busy_bounds st increment
  have hidleWrap : wrapInt64 (cycleBudget - (step0 st increment).busy)
      = 10000000 - (step0 st increment).busy := by
    apply wrapInt64_of_isInt64
    unfold IsInt64 cycleBudget
    omega
  have : (step0 st increment).idle
      = if wrapInt64 (cycleBudget - (step0 st increment).busy) < 0 then 0
        else wrapInt64 (cycleBudget - (step0 st increment).busy) := rfl
  rw [this, hidleWrap]
  split_ifs with h <;> omega

theorem step0_idle_bounds (st : LoadState) (increment : Int) :
    0 ≤ (step0 st increment).idle ∧ (step0 st increment).idle ≤ 10000000 := by
  have hb := step0_busy_bounds st increment
  rw [step0_idle]
  omega

/-- The duration slept is the new `idle`, in nanoseconds: the text handed to
`time.ParseDuration` always parses. -/
theorem step0_ds (st : LoadState) (increment : Int) :
    (step0 st increment).ds = (step0 st increment).idle := by
  have hi := step0_idle_bounds st increment
  have : (step0 st increment).ds
      = (parseDuration (formatInt (step0 st increment).idle ++ "ns")).getD 0 := rfl
  rw [this, parseDuration_formatInt_ns _ hi.1 (by omega)]
  rfl

/-- C2, as stated, fails where the `int64` sum overflows: from the previous
`busy = 9223372036854775807` and the increment `1` the sum wraps to a
negative value and the new `busy` is 0, while `max(0, busy + increment)` is
`9223372036854775808`. -/
theorem step0_overflow_resets_busy :
    (0 : Int) ≤ (⟨9223372036854775807, 0, 0⟩ : LoadState).busy ∧
    IsInt64 (⟨9223372036854775807, 0, 0⟩ : LoadState).busy ∧
    IsInt64 1 ∧
    (step0 ⟨9223372036854775807, 0, 0⟩ 1).busy = 0 ∧
    max 0 ((⟨9223372036854775807, 0, 0⟩ : LoadState).busy + 1) = 9223372036854775808 ∧
    (step0 ⟨9223372036854775807, 0, 0⟩ 1).busy
      ≠ max 0 ((⟨9223372036854775807, 0, 0⟩ : LoadState).busy + 1) := by
  decide

/-- C2, amended. Step-0 recomputation, for a previous `busy >= 0` and an
`int64` increment: the new `busy` is `max(0, busy + increment)` whenever the
sum does not exceed the largest `int64`, and is 0 when it does (the `int64`
addition wraps to a negative value); the new `idle` is
`max(0, 10000000 - busy)`; both are non-negative; the sleep duration is
`idle` nanoseconds. -/
theorem step0_recompute (st : LoadState) (increment : Int)
    (hbusy : 0 ≤ st.busy) (hrange : IsInt64 st.busy) (hinc : IsInt64 increment) :
    (st.busy + increment ≤ 9223372036854775807 →
      (step0 st increment).busy = max 0 (st.busy + increment)) ∧
    (9223372036854775807 < st.busy + increment → (step0 st increment).busy = 0) ∧
    (step0 st increment).idle = max 0 (10000000 - (step0 st increment).busy) ∧
    0 ≤ (step0 st increment).busy ∧
    0 ≤ (step0 st increment).idle ∧
    (step0 st increment).ds = (step0 st increment).idle := by
  refine ⟨?_, ?_, step0_idle st increment,
    (step0_busy_bounds st increment).1, (step0_idle_bounds st increment).1,
    step0_ds st increment⟩
  · intro hsum
    rw [step0_busy, wrapInt64_of_isInt64]
    unfold IsInt64 at hrange hinc ⊢
    omega
  · intro hover
    rw [step0_busy]
    unfold IsInt64 at hrange hinc
    unfold wrapInt64
    omega

/-- Instance of the amended C2: from `busy = 200000` an increment of `100000`
gives `busy = 300000`, `idle = 9700000` and a sleep of `9700000` ns. -/
theorem step0_recompute_witness :
    (0 : Int) ≤ (⟨200000, 9800000, 9800000⟩ : LoadState).busy ∧
    IsInt64 (⟨200000, 9800000, 9800000⟩ : LoadState).busy ∧
    IsInt64 100000 ∧
    (step0 ⟨200000, 9800000, 9800000⟩ 100000).busy = 300000 ∧
    (step0 ⟨200000, 9800000, 9800000⟩ 100000).idle = 9700000 ∧
    (step0 ⟨200000, 9800000, 9800000⟩ 100000).ds = 9700000 := by
  have h := step0_recompute ⟨200000, 9800000, 9800000⟩ 100000
    (by decide) (by decide) (by decide)
  obtain ⟨h1, _, h3, _, _, h6⟩ := h
  have hb := h1 (by decide)
  have hb' : (step0 ⟨200000, 9800000, 9800000⟩ 100000).busy = 300000 := by
    rw [hb]; decide
  have hi' : (step0 ⟨200000, 9800000, 9800000⟩ 100000).idle = 9700000 := by
    rw [h3, hb']; decide
  exact ⟨by decide, by decide, by decide, hb', hi', by rw [h6, hi']⟩

/-- With a positive increment a recomputation always changes `busy`: it grows
by the increment, or, when the `int64` sum overflows, falls back to 0. -/
theorem step0_busy_changes (st : LoadState) (increment : Int)
    (hpos : 0 < increment) (hinc : IsInt64 increment) :
    (step0 st increment).busy ≠ st.busy := by
  rw [step0_busy]
  unfold IsInt64 at hinc
  unfold wrapInt64
  omega

theorem loadAfter_busy_bounds (increment : Int) (n : Nat) :
    0 ≤ (loadAfter increment n).busy ∧
      (loadAfter increment n).busy ≤ 9223372036854775807 := by
  cases n with
  | zero => simp [loadAfter, LoadState.init]
  | succ n => exact step0_busy_bounds _ _

/-- With an increment `<= 0` the load never leaves `busy = 0`. -/
theorem loadAfter_busy_nonpos (increment : Int) (hinc : IsInt64 increment)
    (hle : increment ≤ 0) (n : Nat) : (loadAfter increment n).busy = 0 := by
  induction n with
  | zero => rfl
  | succ n ih =>
    show (step0 (loadAfter increment n) increment).busy = 0
    rw [step0_busy, ih, wrapInt64_of_isInt64 _ (by simpa using hinc)]
    unfold IsInt64 at hinc
    omega

/-- With a positive increment `busy` grows linearly for as long as the sum
fits an `int64`. -/
theorem loadAfter_busy_linear (increment : Int) (hpos : 0 < increment) (n : Nat)
    (hfit : (n : Int) * increment ≤ 9223372036854775807) :
    (loadAfter increment n).busy = (n : Int) * increment := by
  induction n with
  | zero => simp [loadAfter, LoadState.init]
  | succ n ih =>
    have hstep : (n : Int) * increment + increment ≤ 9223372036854775807 := by
      have : ((n + 1 : Nat) : Int) * increment = (n : Int) * increment + increment := by
        push_cast; ring
      linarith
    have hn0 : 0 ≤ (n : Int) * increment :=
      mul_nonneg (Int.ofNat_nonneg n) hpos.le
    show (step0 (loadAfter increment n) increment).busy = _
    rw [step0_busy, ih (by omega), wrapInt64_of_isInt64 _ (by unfold IsInt64; omega)]
    push_cast
    have : ((n : Int) + 1) * increment = (n : Int) * increment + increment := by ring
    omega

/-- C3, as stated, fails for target 50, system load 49 and load factor 1
(`dx = 1`, increment `100000`): `busy` changes at every recomputation, so the
sequence of `busy` values never becomes constant, and after 101
recomputations `busy = 10100000` exceeds the cycle budget, where `idle` is 0
and not `cycleBudget - busy`. -/
theorem loadAfter_constant_increment_no_fixed_point :
    (¬ ∃ N : Nat, ∀ n : Nat, N ≤ n →
      (loadAfter 100000 n).busy = (loadAfter 100000 N).busy) ∧
    (loadAfter 100000 101).busy = 10100000 ∧
    (loadAfter 100000 101).idle = 0 ∧
    (loadAfter 100000 101).idle ≠ cycleBudget - (loadAfter 100000 101).busy := by
  have hb : (loadAfter 100000 101).busy = 10100000 := by
    rw [loadAfter_busy_linear 100000 (by decide) 101 (by decide)]
    decide
  have hi : (loadAfter 100000 101).idle = 0 := by
    have h := step0_idle (loadAfter 100000 100) 100000
    have hb' : (step0 (loadAfter 100000 100) 100000).busy = 10100000 := hb
    rw [hb'] at h
    exact h.trans (by decide)
  refine ⟨?_, hb, hi, ?_⟩
  · rintro ⟨N, hN⟩
    have h := hN (N + 1) (Nat.le_succ N)
    exact step0_busy_changes (loadAfter 100000 N) 100000 (by decide) (by decide) h
  · rw [hi, hb]
    decide

/-- C3, amended. For a constant `int64` increment, starting from `busy = 0`:
an increment `<= 0` keeps `busy` at the fixed point 0; a positive increment
never reaches a fixed point, `busy` changes at every recomputation and equals
`n * increment` after `n` recomputations while that fits an `int64`; after
every recomputation `busy >= 0`, `idle >= 0` and
`idle = max 0 (cycleBudget - busy)`, which is `cycleBudget - busy` exactly
when `busy <= cycleBudget`. -/
theorem loadAfter_constant_increment (increment : Int) (hinc : IsInt64 increment) :
    (increment ≤ 0 → ∀ n : Nat, (loadAfter increment n).busy = 0) ∧
    (0 < increment → ∀ n : Nat,
      (loadAfter increment (n + 1)).busy ≠ (loadAfter increment n).busy) ∧
    (0 < increment → ∀ n : Nat, (n : Int) * increment ≤ 9223372036854775807 →
      (loadAfter increment n).busy = (n : Int) * increment) ∧
    (∀ n : Nat,
      0 ≤ (loadAfter increment (n + 1)).busy ∧
      0 ≤ (loadAfter increment (n + 1)).idle ∧
      (loadAfter increment (n + 1)).idle
        = max 0 (cycleBudget - (loadAfter increment (n + 1)).busy) ∧
      ((loadAfter increment (n + 1)).busy ≤ cycleBudget ↔
        (loadAfter increment (n + 1)).idle
          = cycleBudget - (loadAfter increment (n + 1)).busy)) := by
  refine ⟨fun hle n => loadAfter_busy_nonpos increment hinc hle n, ?_,
    fun hpos n hfit => loadAfter_busy_linear increment hpos n hfit, ?_⟩
  · intro hpos n
    exact step0_busy_changes (loadAfter increment n) increment hpos hinc
  · intro n
    have hb := step0_busy_bounds (loadAfter increment n) increment
    have hi := step0_idle (loadAfter increment n) increment
    have hib := step0_idle_bounds (loadAfter increment n) increment
    show 0 ≤ (step0 (loadAfter increment n) increment).busy ∧
      0 ≤ (step0 (loadAfter increment n) increment).idle ∧
      (step0 (loadAfter increment n) increment).idle
        = max 0 (cycleBudget - (step0 (loadAfter increment n) increment).busy) ∧
      ((step0 (loadAfter increment n) increment).busy ≤ cycleBudget ↔
        (step0 (loadAfter increment n) increment).idle
          = cycleBudget - (step0 (loadAfter increment n) increment).busy)
    unfold cycleBudget
    refine ⟨hb.1, hib.1, hi, ?_⟩
    rw [hi]
    omega

/-- Instance of the amended C3 at the increment `-100000` (target below the
system load): `busy` stays 0 and `idle` is the whole cycle budget. -/
theorem loadAfter_constant_increment_witness :
    IsInt64 (-100000) ∧ (loadAfter (-100000) 5).busy = 0 ∧
    (loadAfter (-100000) 5).idle = cycleBudget - (loadAfter (-100000) 5).busy :=
  ⟨by decide,
    (loadAfter_constant_increment (-100000) (by decide)).1 (by decide) 5,
    ((loadAfter_constant_increment (-100000) (by decide)).2.2.2 4).2.2.2.1
      (by rw [(loadAfter_constant_increment (-100000) (by decide)).1 (by decide) 5]; decide)⟩


/-! ## Theorems: process supervisor -/

theorem sliceEmpty_iff {α : Type} (pids : Option (List α)) :
    sliceEmpty pids = true ↔ pids = none ∨ pids = some [] := by
  cases pids with
  | none => simp [sliceEmpty]
  | some l =>
    cases l with
    | nil => simp [sliceEmpty]
    | cons a l => simp [sliceEmpty]

/-- The outcome of `stopBurnCpu` when the process-table query finds nothing. -/
theorem stopBurnCpu_of_empty (env : Env) (w : World) (t : Trace)
    (h : sliceEmpty (w.GetPidsByProcessName t env.burnCpuBin "nohup").1 = true) :
    stopBurnCpu env w t
      = Outcome.returned (true, "") (t ++ [Event.GetPidsByProcessName env.burnCpuBin "nohup"]) := by
  unfold stopBurnCpu
  simp only [h, if_true]

/-- C7. When the process-table query returns a non-empty list of pids,
`stopBurnCpu` makes, after the query, exactly one `kill` request, with the
argument `-9 ` followed by all the pids in order joined by single spaces; it
returns `(true, "")` when the request succeeds and `(false, err)` with the
request's error text when it fails, and makes no further request. -/
theorem stopBurnCpu_kills_all (env : Env) (w : World) (t : Trace) (pids : List String)
    (hq : (w.GetPidsByProcessName t env.burnCpuBin "nohup").1 = some pids)
    (hne : pids ≠ []) :
    stopBurnCpu env w t
      = Outcome.returned
          (if (w.Run (t ++ [Event.GetPidsByProcessName env.burnCpuBin "nohup"]) "kill"
                ("-9 " ++ " ".intercalate pids)).Success
            then (true, "")
            else (false,
              (w.Run (t ++ [Event.GetPidsByProcessName env.burnCpuBin "nohup"]) "kill"
                ("-9 " ++ " ".intercalate pids)).Err))
          (t ++ [Event.GetPidsByProcessName env.burnCpuBin "nohup",
            Event.Run "kill" ("-9 " ++ " ".intercalate pids)]) ∧
    ((stopBurnCpu env w t).trace.drop t.length).countP Event.isRun = 1 := by
  have hempty : sliceEmpty (some pids) = false := by
    cases pids with
    | nil => exact absurd rfl hne
    | cons a l => rfl
  have hmain : stopBurnCpu env w t
      = Outcome.returned
          (if (w.Run (t ++ [Event.GetPidsByProcessName env.burnCpuBin "nohup"]) "kill"
                ("-9 " ++ " ".intercalate pids)).Success
            then (true, "")
            else (false,
              (w.Run (t ++ [Event.GetPidsByProcessName env.burnCpuBin "nohup"]) "kill"
                ("-9 " ++ " ".intercalate pids)).Err))
          (t ++ [Event.GetPidsByProcessName env.burnCpuBin "nohup",
            Event.Run "kill" ("-9 " ++ " ".intercalate pids)]) := by
    unfold stopBurnCpu
    simp only [hq, hempty, Option.getD_some]
    cases hs : (w.Run (t ++ [Event.GetPidsByProcessName env.burnCpuBin "nohup"]) "kill"
        ("-9 " ++ " ".intercalate pids)).Success <;> simp
  refine ⟨hmain, ?_⟩
  rw [hmain]
  simp [Outcome.trace, Event.isRun]

/-- C8. When the process-table query returns no pid (a nil or an empty
slice), `stopBurnCpu` returns `(true, "")` after the query alone, with no
kill request; and as long as the query keeps returning no pid, any number of
consecutive stops all return `(true, "")` and only ever make that query. -/
theorem stopBurnCpu_idempotent (env : Env) (w : World) (t : Trace) :
    (((w.GetPidsByProcessName t env.burnCpuBin "nohup").1 = none ∨
        (w.GetPidsByProcessName t env.burnCpuBin "nohup").1 = some []) →
      stopBurnCpu env w t
        = Outcome.returned (true, "")
            (t ++ [Event.GetPidsByProcessName env.burnCpuBin "nohup"])) ∧
    ((∀ t1 : Trace, (w.GetPidsByProcessName t1 env.burnCpuBin "nohup").1 = none ∨
        (w.GetPidsByProcessName t1 env.burnCpuBin "nohup").1 = some []) →
      ∀ k : Nat, stopTimes env w k t
        = (List.replicate k (true, ""),
            t ++ List.replicate k (Event.GetPidsByProcessName env.burnCpuBin "nohup"))) := by
  refine ⟨fun h => stopBurnCpu_of_empty env w t ((sliceEmpty_iff _).mpr h), ?_⟩
  intro hall k
  induction k generalizing t with
  | zero => simp [stopTimes]
  | succ k ih =>
    have h1 := stopBurnCpu_of_empty env w t ((sliceEmpty_iff _).mpr (hall t))
    simp only [stopTimes, h1]
    rw [ih]
    simp [List.replicate_succ]

/-- Instance of C7: two workers found, the `kill` request fails. -/
theorem stopBurnCpu_kills_all_witness :
    stopBurnCpu sampleEnv worldTwoWorkers []
      = Outcome.returned (false, "kill: not permitted")
          [Event.GetPidsByProcessName "chaos_burncpu" "nohup",
            Event.Run "kill" "-9 4242 4243"] :=
  (stopBurnCpu_kills_all sampleEnv worldTwoWorkers [] ["4242", "4243"] rfl (by decide)).1

/-- Instance of C8: three stops in a row with no worker running. -/
theorem stopBurnCpu_idempotent_witness :
    stopTimes sampleEnv worldNoWorker 3 []
      = ([(true, ""), (true, ""), (true, "")],
          [Event.GetPidsByProcessName "chaos_burncpu" "nohup",
            Event.GetPidsByProcessName "chaos_burncpu" "nohup",
            Event.GetPidsByProcessName "chaos_burncpu" "nohup"]) :=
  (stopBurnCpu_idempotent sampleEnv worldNoWorker []).2 (fun _ => Or.inl rfl) 3

/-- The sibling path of `bindBurnCpuByTaskset` (lines 249-252): when `taskset`
is there and its run fails, the stop routine is called before the exit. -/
theorem bindBurnCpuByTaskset_run_failure_stops (env : Env) (w : World) (result : Bool × String)
    (core : String) (pid : Int) (t : Trace)
    (havail : w.IsCommandAvailable t "taskset" = true)
    (hfail : (w.Run (t ++ [Event.IsCommandAvailable "taskset"]) "taskset"
      ("-a -cp " ++ core ++ " " ++ formatInt pid)).Success = false) :
    bindBurnCpuByTaskset env w (recordStop result) core pid t
      = Outcome.exited
          (w.Run (t ++ [Event.IsCommandAvailable "taskset"]) "taskset"
            ("-a -cp " ++ core ++ " " ++ formatInt pid)).Err
          (t ++ [Event.IsCommandAvailable "taskset"] ++
            [Event.Run "taskset" ("-a -cp " ++ core ++ " " ++ formatInt pid)] ++
            [Event.stopBurnCpuFunc]) := by
  unfold bindBurnCpuByTaskset
  simp [havail, hfail, stopThenExit, recordStop, printErrAndExit]

/-- C4 at the failing input (any core and pid, `taskset` not available):
`bindBurnCpuByTaskset` exits with the taskset-not-found text right after the
availability test. Whatever routine is stored in `stopBurnCpuFunc`, it is not
called: the outcome does not depend on it and the trace ends with the test. -/
theorem bindBurnCpuByTaskset_missing_tool_no_stop (env : Env) (w : World) (stopF : StopFunc)
    (core : String) (pid : Int) (t : Trace)
    (hmissing : w.IsCommandAvailable t "taskset" = false) :
    bindBurnCpuByTaskset env w stopF core pid t
      = Outcome.exited env.tasksetNotFoundMsg (t ++ [Event.IsCommandAvailable "taskset"]) := by
  unfold bindBurnCpuByTaskset
  simp [hmissing, printErrAndExit]

/-- Instance of C4: worker 4242 was launched for core 0 on a host without
`taskset`; the bind exits and the recording stop routine was never called. -/
theorem bindBurnCpuByTaskset_missing_tool_no_stop_witness :
    bindBurnCpuByTaskset sampleEnv worldNoTaskset (recordStop (true, "")) "0" 4242 []
        = Outcome.exited "taskset command not found" [Event.IsCommandAvailable "taskset"] ∧
    Event.stopBurnCpuFunc ∉
      (bindBurnCpuByTaskset sampleEnv worldNoTaskset (recordStop (true, "")) "0" 4242
        []).trace := by
  have h := bindBurnCpuByTaskset_missing_tool_no_stop sampleEnv worldNoTaskset
    (recordStop (true, "")) "0" 4242 [] rfl
  refine ⟨h, ?_⟩
  rw [h]
  decide


/-! ### Worker discovery key -/

/-- The discovery key of a tag occurs in the command line of every worker
whose tag starts with that tag, in particular in that of its own worker. -/
theorem processKey_infix_of_tag_prefix (env : Env) (cpuCount cpuPercent climbTime : Int)
    (absolute : Bool) (a b : String) (h : a.data <+: b.data) :
    (processKey a).data <:+:
      (burnCpuArgs env cpuCount cpuPercent true b climbTime absolute).data := by
  obtain ⟨r, hr⟩ := h
  unfold processKey burnCpuArgs
  have hsplit : (" --cpu-processor " : String).data = " --".data ++ "cpu-processor ".data := by
    decide
  cases absolute
  · refine ⟨(env.burnCpuPath ++ " --nohup --cpu-count " ++ formatInt cpuCount ++
      " --cpu-percent " ++ formatInt cpuPercent ++ " --climb-time " ++
      formatInt climbTime).data ++ " --".data, r ++ " > /dev/null 2>&1 &".data, ?_⟩
    simp only [String.data_append, ↓reduceIte, Bool.false_eq_true, hsplit, ← hr,
      List.append_assoc]
    rfl
  · refine ⟨(env.burnCpuPath ++ " --nohup --cpu-count " ++ formatInt cpuCount ++
      " --cpu-percent " ++ formatInt cpuPercent ++ " --climb-time " ++
      formatInt climbTime).data ++ " --".data,
      r ++ (" --absolute".data ++ " > /dev/null 2>&1 &".data), ?_⟩
    simp only [String.data_append, ↓reduceIte, hsplit, ← hr, List.append_assoc]
    rfl

/-- The positive half of C5: the discovery key built for a tag is a substring
of the command line built for that tag. -/
theorem processKey_infix_own (env : Env) (cpuCount cpuPercent climbTime : Int)
    (absolute : Bool) (a : String) :
    (processKey a).data <:+:
      (burnCpuArgs env cpuCount cpuPercent true a climbTime absolute).data :=
  processKey_infix_of_tag_prefix env cpuCount cpuPercent climbTime absolute a a
    (List.prefix_refl _)

/-- C5 at the failing input, the distinct tags `1` and `10` of one core list:
the key built for core 1, `cpu-processor 1`, is a substring of the command
line `runBurnCpu` builds for core 10, whatever the other arguments are, so
the lookup for core 1 also matches the worker of core 10. -/
theorem processKey_matches_other_worker :
    ("1" : String) ≠ "10" ∧
    processKey "1" = "cpu-processor 1" ∧
    burnCpuArgs sampleEnv 1 100 true "10" 0 false
      = "/opt/chaosblade/bin/chaos_burncpu --nohup --cpu-count 1 --cpu-percent 100" ++
        " --climb-time 0 --cpu-processor 10 > /dev/null 2>&1 &" ∧
    (∀ (env : Env) (cpuCount cpuPercent climbTime : Int) (absolute : Bool),
      (processKey "1").data <:+:
        (burnCpuArgs env cpuCount cpuPercent true "10" climbTime absolute).data) := by
  refine ⟨by decide, by decide, by decide, ?_⟩
  intro env cpuCount cpuPercent climbTime absolute
  exact processKey_infix_of_tag_prefix env cpuCount cpuPercent climbTime absolute "1" "10"
    ⟨['0'], rfl⟩


/-! ### Start over a core list -/

theorem splitChars_ne_nil (sep : Char) (l : List Char) : splitChars sep l ≠ [] := by
  cases l with
  | nil => simp [splitChars]
  | cons c cs =>
    unfold splitChars
    split_ifs
    · simp
    · split <;> simp

/-- A text with `k` separators splits into `k + 1` pieces. -/
theorem splitChars_length (sep : Char) (l : List Char) :
    (splitChars sep l).length = l.count sep + 1 := by
  induction l with
  | nil => simp [splitChars]
  | cons c cs ih =>
    unfold splitChars
    by_cases h : c = sep
    · subst h
      simp [ih]
    · rw [if_neg h]
      have hc : List.count sep (c :: cs) = List.count sep cs := by
        rw [List.count_cons]
        simp [h]
      rw [hc, ← ih]
      split
      · next heq => exact absurd heq (splitChars_ne_nil sep cs)
      · next piece pieces heq => simp [heq]

/-- Joining the pieces with the separator gives the text back. -/
theorem splitChars_intercalate (sep : Char) (l : List Char) :
    List.intercalate [sep] (splitChars sep l) = l := by
  induction l with
  | nil => simp [splitChars, List.intercalate]
  | cons c cs ih =>
    unfold splitChars
    by_cases h : c = sep
    · subst h
      rw [if_pos rfl]
      obtain ⟨p, ps, hps⟩ := List.exists_cons_of_ne_nil (splitChars_ne_nil c cs)
      rw [hps] at ih ⊢
      simp only [List.intercalate, List.intersperse] at ih ⊢
      rw [List.flatten_cons, List.flatten_cons, ih]
      rfl
    · rw [if_neg h]
      obtain ⟨p, ps, hps⟩ := List.exists_cons_of_ne_nil (splitChars_ne_nil sep cs)
      rw [hps] at ih ⊢
      simp only
      cases ps with
      | nil =>
        simp only [List.intercalate, List.intersperse] at ih ⊢
        rw [← ih]
        simp
      | cons q qs =>
        simp only [List.intercalate, List.intersperse] at ih ⊢
        rw [← ih]
        simp

/-- No piece contains the separator. -/
theorem splitChars_no_sep (sep : Char) (l : List Char) :
    ∀ p ∈ splitChars sep l, sep ∉ p := by
  induction l with
  | nil => simp [splitChars]
  | cons c cs ih =>
    unfold splitChars
    by_cases h : c = sep
    · rw [if_pos h]
      intro p hp
      rcases List.mem_cons.mp hp with rfl | hp
      · simp
      · exact ih p hp
    · rw [if_neg h]
      obtain ⟨q, qs, hqs⟩ := List.exists_cons_of_ne_nil (splitChars_ne_nil sep cs)
      rw [hqs] at ih ⊢
      intro p hp
      rcases List.mem_cons.mp hp with rfl | hp
      · have hq := ih q (List.mem_cons_self _ _)
        intro hmem
        rcases List.mem_cons.mp hmem with heq | hmem
        · exact h heq.symm
        · exact hq hmem
      · exact ih p (List.mem_cons_of_mem _ hp)

theorem stringsSplit_data (s : String) (sep : Char) :
    (stringsSplit s sep).map String.data = splitChars sep s.data := by
  unfold stringsSplit
  rw [List.map_map]
  have : (String.data ∘ String.mk) = id := by
    funext l
    rfl
  rw [this, List.map_id]

/-- With the recording stand-ins the loop over the cores returns and leaves
exactly the expected calls. -/
theorem startCores_record (pidOf : Trace → Int) (cpuCount cpuPercent climbTime : Int)
    (absolute : Bool) (cores : List String) :
    ∀ t : Trace,
      startCores (recordRun pidOf) recordBind cpuCount cpuPercent climbTime absolute cores t
        = Outcome.returned () (coreCalls pidOf cpuCount cpuPercent climbTime absolute cores t) := by
  induction cores with
  | nil => intro t; rfl
  | cons core cores ih =>
    intro t
    simp only [startCores, recordRun, recordBind, coreCalls]
    rw [ih]
    simp

theorem coreCalls_append (pidOf : Trace → Int) (cpuCount cpuPercent climbTime : Int)
    (absolute : Bool) (cores : List String) :
    ∀ t : Trace, ∃ rest : Trace,
      coreCalls pidOf cpuCount cpuPercent climbTime absolute cores t = t ++ rest ∧
      rest.length = 2 * cores.length := by
  induction cores with
  | nil => intro t; exact ⟨[], by simp [coreCalls], rfl⟩
  | cons core cores ih =>
    intro t
    obtain ⟨rest, hrest, hlen⟩ := ih (t ++ [Event.runBurnCpuFunc cpuCount cpuPercent true core
      climbTime absolute, Event.bindBurnCpuFunc core (pidOf t)])
    refine ⟨[Event.runBurnCpuFunc cpuCount cpuPercent true core climbTime absolute,
      Event.bindBurnCpuFunc core (pidOf t)] ++ rest, ?_, ?_⟩
    · simp only [coreCalls]
      rw [hrest, List.append_assoc]
    · simp [hlen]
      omega

/-- Position by position: the `i`-th core accounts for a launch at offset
`2 * i` and, right after it, a bind to the pid that launch returned. -/
theorem coreCalls_get (pidOf : Trace → Int) (cpuCount cpuPercent climbTime : Int)
    (absolute : Bool) (cores : List String) :
    ∀ (t : Trace) (i : Nat) (core : String), cores[i]? = some core →
      (coreCalls pidOf cpuCount cpuPercent climbTime absolute cores t)[t.length + 2 * i]?
        = some (Event.runBurnCpuFunc cpuCount cpuPercent true core climbTime absolute) ∧
      (coreCalls pidOf cpuCount cpuPercent climbTime absolute cores t)[t.length + 2 * i + 1]?
        = some (Event.bindBurnCpuFunc core
            (pidOf ((coreCalls pidOf cpuCount cpuPercent climbTime absolute cores t).take
              (t.length + 2 * i)))) := by
  induction cores with
  | nil => intro t i core h; simp at h
  | cons core0 cores ih =>
    intro t i core h
    cases i with
    | zero =>
      simp only [List.getElem?_cons_zero, Option.some.injEq] at h
      subst h
      obtain ⟨rest, hrest, _⟩ := coreCalls_append pidOf cpuCount cpuPercent climbTime absolute
        cores (t ++ [Event.runBurnCpuFunc cpuCount cpuPercent true core0 climbTime absolute,
          Event.bindBurnCpuFunc core0 (pidOf t)])
      simp only [coreCalls]
      rw [hrest, List.append_assoc]
      refine ⟨?_, ?_⟩
      · rw [List.getElem?_append_right (by omega)]
        simp
      · rw [List.getElem?_append_right (by omega)]
        simp
    | succ j =>
      simp only [List.getElem?_cons_succ] at h
      have := ih (t ++ [Event.runBurnCpuFunc cpuCount cpuPercent true core0 climbTime absolute,
        Event.bindBurnCpuFunc core0 (pidOf t)]) j core h
      simp only [coreCalls]
      have hidx : (t ++ [Event.runBurnCpuFunc cpuCount cpuPercent true core0 climbTime absolute,
          Event.bindBurnCpuFunc core0 (pidOf t)]).length + 2 * j = t.length + 2 * (j + 1) := by
        simp
        omega
      rw [hidx] at this
      exact this

/-- C6. For a non-empty cpu-list, `startBurnCpu` (with recording stand-ins in
the three function variables) returns after exactly these calls: for each of
the `n` comma-separated entries (`n` is the number of commas plus one), in
list order, one launch with `cpuCount` 1, pid lookup enabled and the entry as
processor tag, immediately followed by one bind of that entry to the pid that
launch returned; then one liveness check, and nothing else. For the list
`0,2` these are two launches, bound to core 0 and core 2. -/
theorem startBurnCpu_core_list (pidOf : Trace → Int) (cpuList : String)
    (cpuCount cpuPercent climbTime : Int) (absolute : Bool) (hlist : cpuList ≠ "") :
    (∃ calls : Trace,
      startBurnCpu (recordRun pidOf) recordBind recordCheck cpuList cpuCount cpuPercent
          climbTime absolute [] = Outcome.returned () calls ∧
      (stringsSplit cpuList ',').length = cpuList.data.count ',' + 1 ∧
      List.intercalate [','] ((stringsSplit cpuList ',').map String.data) = cpuList.data ∧
      (∀ core ∈ stringsSplit cpuList ',', ',' ∉ core.data) ∧
      calls.length = 2 * (stringsSplit cpuList ',').length + 1 ∧
      (∀ (i : Nat) (core : String), (stringsSplit cpuList ',')[i]? = some core →
        calls[2 * i]?
          = some (Event.runBurnCpuFunc 1 cpuPercent true core climbTime absolute) ∧
        calls[2 * i + 1]?
          = some (Event.bindBurnCpuFunc core (pidOf (calls.take (2 * i))))) ∧
      calls[2 * (stringsSplit cpuList ',').length]? = some Event.checkBurnCpuFunc) ∧
    startBurnCpu (recordRun pidOf) recordBind recordCheck "0,2" cpuCount cpuPercent
        climbTime absolute []
      = Outcome.returned ()
          [Event.runBurnCpuFunc 1 cpuPercent true "0" climbTime absolute,
            Event.bindBurnCpuFunc "0" (pidOf []),
            Event.runBurnCpuFunc 1 cpuPercent true "2" climbTime absolute,
            Event.bindBurnCpuFunc "2"
              (pidOf [Event.runBurnCpuFunc 1 cpuPercent true "0" climbTime absolute,
                Event.bindBurnCpuFunc "0" (pidOf [])]),
            Event.checkBurnCpuFunc] := by
  have hrun : ∀ s : String, s ≠ "" →
      startBurnCpu (recordRun pidOf) recordBind recordCheck s cpuCount cpuPercent
          climbTime absolute []
        = Outcome.returned ()
            (coreCalls pidOf 1 cpuPercent climbTime absolute (stringsSplit s ',') [] ++
              [Event.checkBurnCpuFunc]) := by
    intro s hs
    unfold startBurnCpu
    rw [if_pos hs]
    simp only [startCores_record, recordCheck]
  constructor
  · obtain ⟨rest, hrest, hlen⟩ := coreCalls_append pidOf 1 cpuPercent climbTime absolute
      (stringsSplit cpuList ',') []
    refine ⟨_, hrun cpuList hlist, ?_, ?_, ?_, ?_, ?_, ?_⟩
    · have := splitChars_length ',' cpuList.data
      rw [← stringsSplit_data, List.length_map] at this
      exact this
    · rw [stringsSplit_data]
      exact splitChars_intercalate ',' cpuList.data
    · intro core hcore
      apply splitChars_no_sep ',' cpuList.data core.data
      rw [← stringsSplit_data]
      exact List.mem_map_of_mem _ hcore
    · rw [hrest]
      simp [hlen]
    · intro i core hi
      have hget := coreCalls_get pidOf 1 cpuPercent climbTime absolute
        (stringsSplit cpuList ',') [] i core hi
      simp only [List.length_nil, Nat.zero_add] at hget
      have hlt : i < (stringsSplit cpuList ',').length := by
        rcases Nat.lt_or_ge i (stringsSplit cpuList ',').length with h | h
        · exact h
        · rw [List.getElem?_eq_none h] at hi
          exact absurd hi (by simp)
      have hlen2 : (coreCalls pidOf 1 cpuPercent climbTime absolute
          (stringsSplit cpuList ',') []).length = 2 * (stringsSplit cpuList ',').length := by
        rw [hrest]
        simp [hlen]
      refine ⟨?_, ?_⟩
      · rw [List.getElem?_append_left (by omega)]
        exact hget.1
      · rw [List.getElem?_append_left (by omega), List.take_append_of_le_length (by omega)]
        exact hget.2
    · have hlen2 : (coreCalls pidOf 1 cpuPercent climbTime absolute
          (stringsSplit cpuList ',') []).length = 2 * (stringsSplit cpuList ',').length := by
        rw [hrest]
        simp [hlen]
      rw [List.getElem?_append_right (by omega), hlen2]
      simp
  · rw [hrun "0,2" (by decide)]
    have hsplit : stringsSplit "0,2" ',' = ["0", "2"] := by decide
    rw [hsplit]
    rfl

/-- Instance of C6 for the cpu-list `0,2`, the launches returning the pids
4242 and 4244. -/
theorem startBurnCpu_core_list_witness :
    ("0,2" : String) ≠ "" ∧
    startBurnCpu (recordRun (fun t => 4242 + (t.length : Int))) recordBind recordCheck "0,2"
        8 100 0 false []
      = Outcome.returned ()
          [Event.runBurnCpuFunc 1 100 true "0" 0 false,
            Event.bindBurnCpuFunc "0" 4242,
            Event.runBurnCpuFunc 1 100 true "2" 0 false,
            Event.bindBurnCpuFunc "2" 4244,
            Event.checkBurnCpuFunc] :=
  ⟨by decide,
    (startBurnCpu_core_list (fun t => 4242 + (t.length : Int)) "0,2" 8 100 0 false
      (by decide)).2⟩


/-! ### End to end, with the functions of the source in the function variables -/

set_option maxRecDepth 100000 in
/-- Start over the cores `0,2` on a host where everything succeeds: two
workers are launched, 4242 is bound to core 0 and 4243 to core 2, and the
liveness check finds them. -/
theorem startBurnCpuReal_two_cores :
    startBurnCpuReal sampleEnv worldProcessTable "0,2" 8 100 0 false []
      = Outcome.returned ()
          [Event.Run "nohup" ("/opt/chaosblade/bin/chaos_burncpu --nohup --cpu-count 1" ++
              " --cpu-percent 100 --climb-time 0 --cpu-processor 0 > /dev/null 2>&1 &"),
            Event.GetPidsByProcessName "chaos_burncpu" "cpu-processor 0",
            Event.IsCommandAvailable "taskset",
            Event.Run "taskset" "-a -cp 0 4242",
            Event.Run "nohup" ("/opt/chaosblade/bin/chaos_burncpu --nohup --cpu-count 1" ++
              " --cpu-percent 100 --climb-time 0 --cpu-processor 2 > /dev/null 2>&1 &"),
            Event.GetPidsByProcessName "chaos_burncpu" "cpu-processor 2",
            Event.IsCommandAvailable "taskset",
            Event.Run "taskset" "-a -cp 2 4243",
            Event.Sleep 1000000000,
            Event.GetPidsByProcessName "chaos_burncpu" "nohup"] := by
  decide

set_option maxRecDepth 100000 in
/-- Start over the cores `10,1` on the same host: the lookup for core 1 uses
the key `cpu-processor 1`, finds the worker of core 10 first, and that
worker, pid 4242, is bound a second time, now to core 1; the worker launched
for core 1, pid 4243, is bound to no core. -/
theorem startBurnCpuReal_binds_other_worker :
    startBurnCpuReal sampleEnv worldProcessTable "10,1" 8 100 0 false []
      = Outcome.returned ()
          [Event.Run "nohup" ("/opt/chaosblade/bin/chaos_burncpu --nohup --cpu-count 1" ++
              " --cpu-percent 100 --climb-time 0 --cpu-processor 10 > /dev/null 2>&1 &"),
            Event.GetPidsByProcessName "chaos_burncpu" "cpu-processor 10",
            Event.IsCommandAvailable "taskset",
            Event.Run "taskset" "-a -cp 10 4242",
            Event.Run "nohup" ("/opt/chaosblade/bin/chaos_burncpu --nohup --cpu-count 1" ++
              " --cpu-percent 100 --climb-time 0 --cpu-processor 1 > /dev/null 2>&1 &"),
            Event.GetPidsByProcessName "chaos_burncpu" "cpu-processor 1",
            Event.IsCommandAvailable "taskset",
            Event.Run "taskset" "-a -cp 1 4242",
            Event.Sleep 1000000000,
            Event.GetPidsByProcessName "chaos_burncpu" "nohup"] := by
  decide

set_option maxRecDepth 100000 in
/-- Start over the core `0` on a host without `taskset`: the worker 4242 is
launched and found, the bind exits with the taskset-not-found text, and
neither a query for the running workers nor a `kill` follows: the worker
stays. -/
theorem startBurnCpuReal_missing_tool_leaves_worker :
    startBurnCpuReal sampleEnv worldProcessTableNoTaskset "0" 8 100 0 false []
      = Outcome.exited "taskset command not found"
          [Event.Run "nohup" ("/opt/chaosblade/bin/chaos_burncpu --nohup --cpu-count 1" ++
              " --cpu-percent 100 --climb-time 0 --cpu-processor 0 > /dev/null 2>&1 &"),
            Event.GetPidsByProcessName "chaos_burncpu" "cpu-processor 0",
            Event.IsCommandAvailable "taskset"] := by
  decide

set_option maxRecDepth 100000 in
/-- The same start on a host where `taskset` is installed and fails: here
the stop routine runs before the exit and kills the worker 4242. -/
theorem startBurnCpuReal_bind_failure_kills_worker :
    startBurnCpuReal sampleEnv worldProcessTableBindFails "0" 8 100 0 false []
      = Outcome.exited "taskset: failed to set affinity"
          [Event.Run "nohup" ("/opt/chaosblade/bin/chaos_burncpu --nohup --cpu-count 1" ++
              " --cpu-percent 100 --climb-time 0 --cpu-processor 0 > /dev/null 2>&1 &"),
            Event.GetPidsByProcessName "chaos_burncpu" "cpu-processor 0",
            Event.IsCommandAvailable "taskset",
            Event.Run "taskset" "-a -cp 0 4242",
            Event.GetPidsByProcessName "chaos_burncpu" "nohup",
            Event.Run "kill" "-9 4242"] := by
  decide

end BurnCpu
